import Mathlib

/-!
Verification of the Component–EventBus–ComponentManager core of the LIFESIM
agent simulation.

The component layer (`Component`, `ComponentManager`) is embedded from
`core/component.py`.  The event layer (`Event`, `EventBus`) is not part of the
available sources (only `core/component.py` and a debug driver are present);
its behaviour is modelled from the specification, as marked on each
definition.
-/

namespace LifeSim

/-- A string-keyed payload mapping (Python `Dict[str, Any]`, with opaque
values modelled as strings). -/
abbrev Payload := List (String × String)

/-- Modelled from the spec: `Event` from the missing `core/event_bus.py` —
an immutable value with `type`, `source`, `target` (default the broadcast
sentinel "all"), `data` (default empty mapping), `priority` (small integer,
lower = more urgent, default 5) and `timestamp` (logical bus time at
emission). -/
structure Event where
  type : String
  source : String
  target : String := "all"
  data : Payload := []
  priority : Int := 5
  timestamp : Nat := 0
deriving DecidableEq, Repr

/-- Modelled from the spec: one handler registration in the bus's
subscription table.  `Component.subscribe` registers the component's
`on_event` bound method, so a registration carries the set of event types,
the owning agent's identifier and an identifier for the handler (the
component instance whose `on_event` was registered). -/
structure Subscription where
  eventTypes : List String
  ownerId : String
  handlerId : Nat
deriving DecidableEq, Repr

/-- Modelled from the spec: `EventBus` from the missing `core/event_bus.py` —
owns the subscription table (registration order preserved), a pending-event
queue and a logical clock advanced one step per tick. -/
structure EventBus where
  subscriptions : List Subscription
  pending : List Event
  currentTime : Nat
deriving DecidableEq, Repr

/-- Modelled from the spec: `get_current_time()` returns the clock value as
of the last completed tick. -/
def EventBus.get_current_time (bus : EventBus) : Nat :=
  bus.currentTime

/-- Modelled from the spec: `emit(event)` enqueues the event for later
delivery; emission and delivery are decoupled. -/
def EventBus.emit (bus : EventBus) (e : Event) : EventBus :=
  { bus with pending := bus.pending ++ [e] }

/-- Modelled from the spec: `subscribe(event_types, handler)` appends a
registration for the handler to the subscription table. -/
def EventBus.subscribe (bus : EventBus) (s : Subscription) : EventBus :=
  { bus with subscriptions := bus.subscriptions ++ [s] }

/-- Modelled from the spec: a registration receives an event when the event's
type is one of the subscribed types AND the event's target is either the
broadcast sentinel "all" or the handler's owning agent identifier. -/
def subMatches (s : Subscription) (e : Event) : Bool :=
  s.eventTypes.contains e.type && (e.target == "all" || e.target == s.ownerId)

/-- Modelled from the spec: the delivery schedule of one tick — the pending
queue (paired with emission positions) stably sorted by ascending numeric
priority, so that equal priorities stay in emission (FIFO) order. -/
def schedule (pending : List Event) : List (Nat × Event) :=
  List.insertionSort (fun a b => a.2.priority ≤ b.2.priority) pending.enum

/-- Modelled from the spec: the full delivery trace of one tick — each
scheduled event is handed, in schedule order, to every matching
registration.  A trace entry records the receiving handler, the event's
emission position and the event itself. -/
def deliveryTrace (subs : List Subscription) (pending : List Event) :
    List (Nat × Nat × Event) :=
  (schedule pending).flatMap fun ie =>
    (subs.filter fun s => subMatches s ie.2).map fun s => (s.handlerId, ie.1, ie.2)

/-- Modelled from the spec: `tick()` advances the logical clock by one step,
drains the pending queue delivering along `deliveryTrace`, and queues every
event emitted by a handler during the pass for the next tick.  `emitFn h e`
gives the events handler `h` emits upon being delivered `e`; the tick
returns the new bus state together with the delivery trace. -/
def EventBus.tick (bus : EventBus) (emitFn : Nat → Event → List Event) :
    EventBus × List (Nat × Nat × Event) :=
  let trace := deliveryTrace bus.subscriptions bus.pending
  ({ subscriptions := bus.subscriptions,
     pending := trace.flatMap fun t => emitFn t.1 t.2.2,
     currentTime := bus.currentTime + 1 }, trace)

/-- Strict priority-then-emission-position order on scheduled entries. -/
def lexLT (a b : Nat × Event) : Prop :=
  a.2.priority < b.2.priority ∨ (a.2.priority = b.2.priority ∧ a.1 < b.1)

/-- Reflexive priority-then-emission-position order, used on per-handler
delivery sequences (a handler registered twice receives the same delivery
twice, consecutively). -/
def lexLE (a b : Nat × Event) : Prop :=
  a.2.priority < b.2.priority ∨ (a.2.priority = b.2.priority ∧ a.1 ≤ b.1)

/-- The sequence of (emission position, event) deliveries one fixed handler
receives during a tick, in delivery order. -/
def deliveriesTo (subs : List Subscription) (pending : List Event) (h : Nat) :
    List (Nat × Event) :=
  ((deliveryTrace subs pending).filter fun t => t.1 == h).map fun t => t.2

/-- Stable name of a component class (Python `self.__class__.__name__`);
classes are identified by numeric tags in the embedding, and distinct
classes have distinct names. -/
def clsName (cls : Nat) : String :=
  "Class" ++ toString cls

/-- A component instance, from `Component.__init__` in `core/component.py`:
it stores the owning agent's id, the agent back-reference (`None` until the
manager injects it) and the list of subscribed event types.  `name` is the
concrete class's name and `state` stands for the concrete subclass's own
fields.  The stored `self.event_bus` reference is modelled by passing the
bus alongside wherever the code uses it. -/
structure Component where
  agentId : String
  agent : Option String
  subscribedEvents : List String
  name : String
  state : Payload
deriving DecidableEq, Repr

/-- Embeds `Component.__init__(agent_id, event_bus)` plus subclass construction:
sets `agent_id`, keeps the bus reference (returned unchanged — the
constructor does not mutate the bus), sets `agent = None` and an empty
subscription list; `arg` stands for subclass constructor arguments that
become subclass state. -/
def Component.init (cls : Nat) (agent_id : String) (event_bus : EventBus)
    (arg : Payload) : Component × EventBus :=
  ({ agentId := agent_id, agent := none, subscribedEvents := [],
     name := clsName cls, state := arg }, event_bus)

/-- Embeds `Component.subscribe(event_types)`: registers the component's `on_event`
(identified by `hid`) with the bus for those types and records them in
`subscribed_events`. -/
def Component.subscribe (c : Component) (bus : EventBus) (hid : Nat)
    (event_types : List String) : Component × EventBus :=
  ({ c with subscribedEvents := c.subscribedEvents ++ event_types },
   bus.subscribe ⟨event_types, c.agentId, hid⟩)

/-- Embeds `Component.emit_event(event_type, data=None, priority=5, target="all")`:
replaces a missing payload by the empty mapping, builds an `Event` with the
component's agent id as source and the bus's current time as timestamp, and
forwards it to `EventBus.emit`. -/
def Component.emit_event (c : Component) (bus : EventBus) (event_type : String)
    (data : Option Payload := none) (priority : Int := 5)
    (target : String := "all") : EventBus :=
  let d := match data with
    | none => []
    | some d0 => d0
  bus.emit { type := event_type, source := c.agentId, target := target,
             data := d, priority := priority,
             timestamp := bus.get_current_time }

/-- Embeds `Component.get_component_name()`: the concrete class's name. -/
def Component.get_component_name (c : Component) : String :=
  c.name

/-- Insertion into a Python `dict` (`self._components[key] = value`): an
existing key keeps its position and gets the new value; a new key is
appended. -/
def dictInsert {ν : Type} (k : Nat) (v : ν) : List (Nat × ν) → List (Nat × ν)
  | [] => [(k, v)]
  | (k', v') :: t => if k' = k then (k, v) :: t else (k', v') :: dictInsert k v t

/-- Embeds `ComponentManager.__init__`: the agent's id, the agent back-reference
and the type-keyed component registry (the shared bus reference is passed
alongside wherever used). -/
structure ComponentManager where
  agentId : String
  agent : Option String
  components : List (Nat × Component)
deriving DecidableEq, Repr

/-- Embeds `ComponentManager.add_component(component_class, *args)`: constructs the
component with the manager's agent id and bus as leading arguments, injects
the agent back-reference, stores the instance keyed by the class
(overwriting any prior instance of that exact class) and returns it. -/
def ComponentManager.add_component (m : ComponentManager) (bus : EventBus)
    (cls : Nat) (arg : Payload) : ComponentManager × EventBus × Component :=
  let ce := Component.init cls m.agentId bus arg
  let component := { ce.1 with agent := m.agent }
  ({ m with components := dictInsert cls component m.components },
   ce.2, component)

/-- Embeds `ComponentManager.get_component(component_class)`:
`self._components.get(component_class)` — the stored instance or `None`. -/
def ComponentManager.get_component (m : ComponentManager) (cls : Nat) :
    Option Component :=
  List.lookup cls m.components

/-- Embeds `ComponentManager.has_component(component_class)`:
`component_class in self._components`. -/
def ComponentManager.has_component (m : ComponentManager) (cls : Nat) : Bool :=
  m.components.any fun kc => kc.1 == cls

/-- Embeds `ComponentManager.get_all_components()`: the stored instances in
registry order. -/
def ComponentManager.get_all_components (m : ComponentManager) :
    List Component :=
  m.components.map Prod.snd

/-- The loop of `ComponentManager.tick`: runs `component.tick(delta_time)`
over the registry in order.  `f` is the (subclass-overridable) per-component
tick, which may raise (`Except.error`); the loop body has no handler, so the
first error propagates and later components are not ticked.  Also returns
the invocation trace (component key, delta passed), to state how often and
with what argument each component was ticked. -/
def tickComponents (f : Component → Rat → Except String Component) (dt : Rat) :
    List (Nat × Component) →
      Except String (List (Nat × Component)) × List (Nat × Rat)
  | [] => (Except.ok [], [])
  | (k, c) :: t =>
    match f c dt with
    | Except.error err => (Except.error err, [(k, dt)])
    | Except.ok c' =>
      let r := tickComponents f dt t
      (r.1.map fun l => (k, c') :: l, (k, dt) :: r.2)

/-- Embeds `ComponentManager.tick(delta_time)`: ticks every owned component in
registry order with the given delta; an exception from a component's tick
propagates to the caller. -/
def ComponentManager.tick (m : ComponentManager)
    (f : Component → Rat → Except String Component) (dt : Rat) :
    Except String ComponentManager × List (Nat × Rat) :=
  let r := tickComponents f dt m.components
  (r.1.map fun comps => { m with components := comps }, r.2)

/-- Embeds `ComponentManager.serialize()`: a mapping from each component's name to
its serialized state (`serializeFn` is the subclass-defined `serialize`). -/
def ComponentManager.serialize (m : ComponentManager)
    (serializeFn : Component → Payload) : List (String × Payload) :=
  m.components.map fun kc => (kc.2.get_component_name, serializeFn kc.2)

/-- Embeds `ComponentManager.deserialize(data)`: for each component already in the
registry, if its name is a key of `data`, restore it via the
subclass-defined `deserialize` (`deserializeFn`); otherwise leave it
unchanged.  No component is ever constructed or removed. -/
def ComponentManager.deserialize (m : ComponentManager)
    (data : List (String × Payload))
    (deserializeFn : Component → Payload → Component) : ComponentManager :=
  { m with components := m.components.map fun kc =>
      match List.lookup kc.2.get_component_name data with
      | some sd => (kc.1, deserializeFn kc.2 sd)
      | none => kc }

/-- A sequence of `add_component` calls (class tag and constructor
arguments, applied left to right). -/
def applyAdds (m : ComponentManager) (bus : EventBus)
    (ops : List (Nat × Payload)) : ComponentManager × EventBus :=
  match ops with
  | [] => (m, bus)
  | op :: rest =>
    let r := m.add_component bus op.1 op.2
    applyAdds r.1 r.2.1 rest

/-- The instance value `add_component cls arg` produces on a manager with
the given agent id and back-reference. -/
def builtComponent (agentId : String) (agent : Option String) (cls : Nat)
    (arg : Payload) : Component :=
  { agentId := agentId, agent := agent, subscribedEvents := [],
    name := clsName cls, state := arg }

/-- A fresh per-agent manager (no components yet), used to instantiate the
hypothesis-bearing theorems at a concrete input. -/
def wMgr : ComponentManager :=
  { agentId := "ag", agent := none, components := [] }

/-- A fresh bus (no subscriptions, empty queue, time 0), used to instantiate
the hypothesis-bearing theorems at a concrete input. -/
def wBus : EventBus :=
  { subscriptions := [], pending := [], currentTime := 0 }

/-- A registration of agent "a1"'s handler 0 for "ping" and "pong". -/
def wSub : Subscription :=
  { eventTypes := ["ping", "pong"], ownerId := "a1", handlerId := 0 }

/-- A broadcast "ping" event pending from time 0. -/
def wPing : Event :=
  { type := "ping", source := "sys", target := "all", data := [],
    priority := 5, timestamp := 0 }

/-- The "pong" reply a handler emits while being delivered `wPing`. -/
def wPong : Event :=
  { type := "pong", source := "a1", target := "all", data := [],
    priority := 5, timestamp := 1 }

/-- A bus holding the `wSub` registration and the pending `wPing`. -/
def wBus2 : EventBus :=
  { subscriptions := [wSub], pending := [wPing], currentTime := 0 }

/-- Handler behaviour: reply to a "ping" delivery with `wPong`. -/
def wEmit : Nat → Event → List Event :=
  fun _ ev => if ev.type == "ping" then [wPong] else []

/-- Handler behaviour: emit nothing. -/
def wEmitNone : Nat → Event → List Event :=
  fun _ _ => []

theorem lexLT_le {a b : Nat × Event} (h : lexLT a b) :
    a.2.priority ≤ b.2.priority := by
  rcases h with h | ⟨h, _⟩
  · exact le_of_lt h
  · exact le_of_eq h

theorem lexLT_lexLE {a b : Nat × Event} (h : lexLT a b) : lexLE a b := by
  rcases h with h | ⟨h1, h2⟩
  · exact Or.inl h
  · exact Or.inr ⟨h1, le_of_lt h2⟩

theorem pairwise_lexLT_orderedInsert (a : Nat × Event) :
    ∀ l : List (Nat × Event), l.Pairwise lexLT → (∀ b ∈ l, a.1 < b.1) →
      (List.orderedInsert (fun x y => x.2.priority ≤ y.2.priority) a l).Pairwise lexLT := by
  intro l
  induction l with
  | nil => intro _ _; simp [List.orderedInsert]
  | cons b t ih =>
    intro hp hidx
    rw [List.orderedInsert]
    rcases List.pairwise_cons.mp hp with ⟨hbt, hpt⟩
    by_cases hab : a.2.priority ≤ b.2.priority
    · rw [if_pos hab]
      refine List.pairwise_cons.mpr ⟨?_, hp⟩
      intro c hc
      rcases List.mem_cons.mp hc with hc | hc
      · rw [hc]
        rcases lt_or_eq_of_le hab with h | h
        · exact Or.inl h
        · exact Or.inr ⟨h, hidx b (List.mem_cons_self b t)⟩
      · have hbc := hbt c hc
        have : a.2.priority ≤ c.2.priority := le_trans hab (lexLT_le hbc)
        rcases lt_or_eq_of_le this with h | h
        · exact Or.inl h
        · exact Or.inr ⟨h, hidx c (List.mem_cons_of_mem b hc)⟩
    · rw [if_neg hab]
      refine List.pairwise_cons.mpr ⟨?_, ?_⟩
      · intro c hc
        rcases (List.mem_orderedInsert _).mp hc with hc | hc
        · subst hc
          exact Or.inl (lt_of_not_le hab)
        · exact hbt c hc
      · exact ih hpt fun c hc => hidx c (List.mem_cons_of_mem b hc)

theorem pairwise_lexLT_insertionSort :
    ∀ l : List (Nat × Event), l.Pairwise (fun x y => x.1 < y.1) →
      (List.insertionSort (fun x y => x.2.priority ≤ y.2.priority) l).Pairwise lexLT := by
  intro l
  induction l with
  | nil => intro _; simp [List.insertionSort]
  | cons a t ih =>
    intro hp
    rcases List.pairwise_cons.mp hp with ⟨hat, hpt⟩
    rw [List.insertionSort]
    refine pairwise_lexLT_orderedInsert a _ (ih hpt) ?_
    intro b hb
    exact hat b ((List.mem_insertionSort _).mp hb)

theorem pairwise_lt_enumFrom (l : List Event) :
    ∀ n : Nat, (l.enumFrom n).Pairwise (fun x y => x.1 < y.1) := by
  induction l with
  | nil => intro n; simp
  | cons a t ih =>
    intro n
    rw [List.enumFrom]
    refine List.pairwise_cons.mpr ⟨?_, ih (n + 1)⟩
    intro b hb
    have := (List.mem_enumFrom hb).1
    omega

theorem pairwise_lexLT_schedule (pending : List Event) :
    (schedule pending).Pairwise lexLT := by
  unfold schedule
  exact pairwise_lexLT_insertionSort _ (pairwise_lt_enumFrom pending 0)

theorem filter_flatMap_comm {α β : Type} (l : List α) (f : α → List β) (p : β → Bool) :
    (l.flatMap f).filter p = l.flatMap fun x => (f x).filter p := by
  induction l with
  | nil => rfl
  | cons a t ih => simp [List.flatMap_cons, List.filter_append, ih]

theorem map_flatMap_comm {α β γ : Type} (l : List α) (f : α → List β) (g : β → γ) :
    (l.flatMap f).map g = l.flatMap fun x => (f x).map g := by
  induction l with
  | nil => rfl
  | cons a t ih => simp [List.flatMap_cons, ih]

theorem pairwise_lexLE_flatMap (g : (Nat × Event) → List (Nat × Event))
    (hg : ∀ x, ∀ y ∈ g x, y = x) :
    ∀ l : List (Nat × Event), l.Pairwise lexLT → (l.flatMap g).Pairwise lexLE := by
  intro l
  induction l with
  | nil => intro _; simp
  | cons a t ih =>
    intro hp
    rcases List.pairwise_cons.mp hp with ⟨hat, hpt⟩
    rw [List.flatMap_cons]
    rw [List.pairwise_append]
    refine ⟨?_, ih hpt, ?_⟩
    · refine List.pairwise_of_forall_mem_list ?_
      intro x hx y hy
      rw [hg a x hx, hg a y hy]
      exact Or.inr ⟨rfl, le_refl _⟩
    · intro x hx y hy
      rcases List.mem_flatMap.mp hy with ⟨b, hb, hyb⟩
      rw [hg a x hx, hg b y hyb]
      exact lexLT_lexLE (hat b hb)

theorem pairwise_lexLE_deliveriesTo (subs : List Subscription)
    (pending : List Event) (h : Nat) :
    (deliveriesTo subs pending h).Pairwise lexLE := by
  unfold deliveriesTo deliveryTrace
  rw [filter_flatMap_comm, map_flatMap_comm]
  refine pairwise_lexLE_flatMap _ ?_ _ (pairwise_lexLT_schedule pending)
  intro ie y hy
  rcases List.mem_map.mp hy with ⟨t, ht, hty⟩
  rcases List.mem_filter.mp ht with ⟨htm, _⟩
  rcases List.mem_map.mp htm with ⟨s, _, hst⟩
  rw [← hty, ← hst]

theorem mem_schedule_iff (pending : List Event) (ie : Nat × Event) :
    ie ∈ schedule pending ↔ ie ∈ pending.enum :=
  List.mem_insertionSort _

theorem snd_mem_of_mem_enum {l : List Event} {i : Nat} {e : Event}
    (h : (i, e) ∈ l.enum) : e ∈ l := by
  have : (i, e).2 ∈ l.enum.map Prod.snd := List.mem_map_of_mem Prod.snd h
  rwa [List.enum_map_snd] at this

theorem exists_enum_of_mem {l : List Event} {e : Event} (h : e ∈ l) :
    ∃ i, (i, e) ∈ l.enum := by
  rw [← List.enum_map_snd l] at h
  rcases List.mem_map.mp h with ⟨p, hp, hpe⟩
  exact ⟨p.1, by rw [← hpe, Prod.mk.eta]; exact hp⟩

theorem trace_sound {subs : List Subscription} {pending : List Event}
    {hid i : Nat} {e : Event} (h : (hid, i, e) ∈ deliveryTrace subs pending) :
    (i, e) ∈ pending.enum ∧
      ∃ s ∈ subs, subMatches s e = true ∧ s.handlerId = hid := by
  rcases List.mem_flatMap.mp h with ⟨ie, hie, hmem⟩
  rcases List.mem_map.mp hmem with ⟨s, hs, hst⟩
  rcases List.mem_filter.mp hs with ⟨hsm, hmatch⟩
  have h1 : s.handlerId = hid := congrArg Prod.fst hst
  have h2 : ie.1 = i := congrArg (fun t => t.2.1) hst
  have h3 : ie.2 = e := congrArg (fun t => t.2.2) hst
  constructor
  · rw [← h2, ← h3, Prod.mk.eta]
    exact (mem_schedule_iff pending ie).mp hie
  · exact ⟨s, hsm, by rwa [h3] at hmatch, h1⟩

theorem trace_complete {subs : List Subscription} {pending : List Event}
    {s : Subscription} {i : Nat} {e : Event} (hs : s ∈ subs)
    (he : (i, e) ∈ pending.enum) (hm : subMatches s e = true) :
    (s.handlerId, i, e) ∈ deliveryTrace subs pending := by
  refine List.mem_flatMap.mpr ⟨(i, e), (mem_schedule_iff pending _).mpr he, ?_⟩
  exact List.mem_map.mpr ⟨s, List.mem_filter.mpr ⟨hs, hm⟩, rfl⟩

/-- C1 — Within one `tick()`, each handler receives its deliveries in
ascending numeric priority order, ties broken by emission (FIFO) order; in
particular A(priority 1), B(priority 5), C(priority 1) emitted in order
A, B, C are delivered to a shared handler in the order A, C, B. -/
theorem tick_priority_order :
    (∀ (bus : EventBus) (emitFn : Nat → Event → List Event) (h : Nat),
      (((bus.tick emitFn).2.filter fun t => t.1 == h).map fun t => t.2).Pairwise
        lexLE) ∧
    ((EventBus.tick
        ⟨[⟨["ping"], "a1", 0⟩],
         [⟨"ping", "A", "all", [], 1, 0⟩, ⟨"ping", "B", "all", [], 5, 0⟩,
          ⟨"ping", "C", "all", [], 1, 0⟩], 0⟩
        fun _ _ => []).2.map (fun t => t.2.2) =
      [⟨"ping", "A", "all", [], 1, 0⟩, ⟨"ping", "C", "all", [], 1, 0⟩,
       ⟨"ping", "B", "all", [], 5, 0⟩]) := by
  constructor
  · intro bus emitFn h
    exact pairwise_lexLE_deliveriesTo bus.subscriptions bus.pending h
  · decide

theorem lookup_dictInsert_self {ν : Type} (k : Nat) (v : ν) :
    ∀ l : List (Nat × ν), List.lookup k (dictInsert k v l) = some v := by
  intro l
  induction l with
  | nil => simp [dictInsert]
  | cons kv t ih =>
    rcases kv with ⟨k', v'⟩
    by_cases h : k' = k
    · rw [dictInsert, if_pos h, List.lookup_cons]
      simp
    · rw [dictInsert, if_neg h, List.lookup_cons]
      have : (k == k') = false := by
        simp [Ne.symm h]
      rw [this]
      exact ih

theorem lookup_dictInsert_ne {ν : Type} (k k' : Nat) (v : ν) (hne : k' ≠ k) :
    ∀ l : List (Nat × ν),
      List.lookup k' (dictInsert k v l) = List.lookup k' l := by
  intro l
  have hbe : (k' == k) = false := by simp [hne]
  induction l with
  | nil =>
    rw [dictInsert, List.lookup_cons, hbe, List.lookup_nil]
  | cons kv t ih =>
    rcases kv with ⟨k₀, v₀⟩
    by_cases h : k₀ = k
    · rw [dictInsert, if_pos h, List.lookup_cons, List.lookup_cons, h, hbe]
    · rw [dictInsert, if_neg h, List.lookup_cons, List.lookup_cons]
      cases hb₀ : k' == k₀ with
      | true => rfl
      | false => exact ih

theorem mem_keys_dictInsert {ν : Type} (k a : Nat) (v : ν) :
    ∀ l : List (Nat × ν),
      (a ∈ (dictInsert k v l).map Prod.fst ↔ a = k ∨ a ∈ l.map Prod.fst) := by
  intro l
  induction l with
  | nil => simp [dictInsert]
  | cons kv t ih =>
    rcases kv with ⟨k₀, v₀⟩
    by_cases h : k₀ = k
    · subst h
      rw [dictInsert, if_pos rfl]
      simp only [List.map_cons, List.mem_cons]
      constructor
      · intro hm; exact Or.inr hm
      · rintro (rfl | hm)
        · exact Or.inl rfl
        · exact hm
    · rw [dictInsert, if_neg h]
      simp only [List.map_cons, List.mem_cons, ih]
      tauto

theorem nodup_keys_dictInsert {ν : Type} (k : Nat) (v : ν) :
    ∀ l : List (Nat × ν), (l.map Prod.fst).Nodup →
      ((dictInsert k v l).map Prod.fst).Nodup := by
  intro l
  induction l with
  | nil => intro _; simp [dictInsert]
  | cons kv t ih =>
    rcases kv with ⟨k₀, v₀⟩
    intro hnd
    rw [List.map_cons, List.nodup_cons] at hnd
    by_cases h : k₀ = k
    · subst h
      rw [dictInsert, if_pos rfl, List.map_cons, List.nodup_cons]
      exact hnd
    · rw [dictInsert, if_neg h, List.map_cons, List.nodup_cons]
      refine ⟨?_, ih hnd.2⟩
      rw [mem_keys_dictInsert]
      rintro (rfl | hmem)
      · exact h rfl
      · exact hnd.1 hmem

theorem countP_dictInsert_nodup {ν : Type} (k : Nat) (v : ν) :
    ∀ l : List (Nat × ν), (l.map Prod.fst).Nodup →
      (dictInsert k v l).countP (fun kc => kc.1 == k) = 1 := by
  intro l
  induction l with
  | nil => intro _; simp [dictInsert, List.countP_cons]
  | cons kv t ih =>
    rcases kv with ⟨k₀, v₀⟩
    intro hnd
    rw [List.map_cons, List.nodup_cons] at hnd
    by_cases h : k₀ = k
    · subst h
      rw [dictInsert, if_pos rfl, List.countP_cons]
      have hz : t.countP (fun kc => kc.1 == k₀) = 0 := by
        rw [List.countP_eq_zero]
        intro kc hkc hbeq
        exact hnd.1 (List.mem_map.mpr ⟨kc, hkc, (beq_iff_eq.mp hbeq)⟩)
      simp [hz]
    · rw [dictInsert, if_neg h, List.countP_cons]
      have : (((k₀, v₀) : Nat × ν).1 == k) = false := by
        simp [h]
      simp only [this, ih hnd.2]
      simp

theorem add_component_get_self (m : ComponentManager) (bus : EventBus)
    (cls : Nat) (arg : Payload) :
    (m.add_component bus cls arg).1.get_component cls =
      some (builtComponent m.agentId m.agent cls arg) := by
  show List.lookup cls (dictInsert cls _ m.components) = _
  rw [lookup_dictInsert_self]
  rfl

theorem add_component_get_other (m : ComponentManager) (bus : EventBus)
    (cls cls' : Nat) (arg : Payload) (hne : cls' ≠ cls) :
    (m.add_component bus cls arg).1.get_component cls' =
      m.get_component cls' := by
  show List.lookup cls' (dictInsert cls _ m.components) = _
  rw [lookup_dictInsert_ne cls cls' _ hne]
  rfl

theorem add_component_ids (m : ComponentManager) (bus : EventBus)
    (cls : Nat) (arg : Payload) :
    (m.add_component bus cls arg).1.agentId = m.agentId ∧
    (m.add_component bus cls arg).1.agent = m.agent ∧
    (m.add_component bus cls arg).2.1 = bus := by
  exact ⟨rfl, rfl, rfl⟩

theorem applyAdds_frame :
    ∀ (ops : List (Nat × Payload)) (m : ComponentManager) (bus : EventBus),
      (applyAdds m bus ops).2 = bus ∧
      (applyAdds m bus ops).1.agentId = m.agentId ∧
      (applyAdds m bus ops).1.agent = m.agent := by
  intro ops
  induction ops with
  | nil => intro m bus; exact ⟨rfl, rfl, rfl⟩
  | cons op rest ih =>
    intro m bus
    rcases ih (m.add_component bus op.1 op.2).1 (m.add_component bus op.1 op.2).2.1
      with ⟨h1, h2, h3⟩
    refine ⟨?_, ?_, ?_⟩
    · rw [applyAdds]; exact h1
    · rw [applyAdds]; exact h2
    · rw [applyAdds]; exact h3

theorem applyAdds_get_last :
    ∀ (ops : List (Nat × Payload)) (m : ComponentManager) (bus : EventBus)
      (cls : Nat),
      (applyAdds m bus ops).1.get_component cls =
        match ops.reverse.find? (fun op => op.1 == cls) with
        | some op => some (builtComponent m.agentId m.agent cls op.2)
        | none => m.get_component cls := by
  intro ops
  induction ops with
  | nil => intro m bus cls; rfl
  | cons op rest ih =>
    intro m bus cls
    rw [applyAdds]
    rw [ih]
    rcases add_component_ids m bus op.1 op.2 with ⟨ha1, ha2, _⟩
    rw [ha1, ha2, List.reverse_cons, List.find?_append]
    cases hfind : rest.reverse.find? (fun o => o.1 == cls) with
    | some op' => simp [Option.or]
    | none =>
      simp only [Option.or, List.find?]
      by_cases hcls : op.1 = cls
      · have : (op.1 == cls) = true := beq_iff_eq.mpr hcls
        rw [this]
        subst hcls
        exact add_component_get_self m bus op.1 op.2
      · have : (op.1 == cls) = false := by
          simp [hcls]
        rw [this]
        exact add_component_get_other m bus op.1 cls op.2 fun h => hcls h.symm

theorem get_component_none_iff (m : ComponentManager) (cls : Nat) :
    m.get_component cls = none ↔ m.has_component cls = false := by
  unfold ComponentManager.get_component ComponentManager.has_component
  rw [List.lookup_eq_none_iff, List.any_eq_false]
  constructor
  · intro h kc hkc hbe
    have := h kc hkc
    rw [bne_iff_ne] at this
    exact this (beq_iff_eq.mp hbe).symm
  · intro h kc hkc
    rw [bne_iff_ne]
    intro he
    exact h kc hkc (beq_iff_eq.mpr he.symm)

theorem has_component_true_iff (m : ComponentManager) (cls : Nat) :
    m.has_component cls = true ↔ cls ∈ m.components.map Prod.fst := by
  unfold ComponentManager.has_component
  rw [List.any_eq_true]
  constructor
  · rintro ⟨kc, hkc, hbe⟩
    exact List.mem_map.mpr ⟨kc, hkc, beq_iff_eq.mp hbe⟩
  · intro hm
    rcases List.mem_map.mp hm with ⟨kc, hkc, heq⟩
    exact ⟨kc, hkc, beq_iff_eq.mpr heq⟩

/-- C3 — last-write-wins singleton registry: after any sequence of
`add_component` calls, `get_component cls` returns the instance built by the
most recent `add_component` of that exact class (or is unchanged when the
sequence never adds it); adding the same class twice leaves exactly one
registry entry for it, holding the second instance. -/
theorem component_singleton_registry (m : ComponentManager)
    (bus bus' bus'' : EventBus) (ops : List (Nat × Payload)) (cls : Nat)
    (a b : Payload) (hnd : (m.components.map Prod.fst).Nodup) :
    ((applyAdds m bus ops).1.get_component cls =
      match ops.reverse.find? (fun op => op.1 == cls) with
      | some op => some (builtComponent m.agentId m.agent cls op.2)
      | none => m.get_component cls) ∧
    ((((m.add_component bus' cls a).1.add_component bus'' cls b).1.components.countP
        fun kc => kc.1 == cls) = 1) ∧
    (((m.add_component bus' cls a).1.add_component bus'' cls b).1.get_component cls =
      some (builtComponent m.agentId m.agent cls b)) := by
  refine ⟨applyAdds_get_last ops m bus cls, ?_, ?_⟩
  · show ((dictInsert cls _ (dictInsert cls _ m.components)).countP
        fun kc => kc.1 == cls) = 1
    exact countP_dictInsert_nodup _ _ _ (nodup_keys_dictInsert _ _ _ hnd)
  · rcases add_component_ids m bus' cls a with ⟨h1, h2, _⟩
    rw [add_component_get_self, h1, h2]

/-- Closed instance of C3: two components added, the first class added
again with new state; lookups and the entry count evaluate as stated. -/
theorem component_singleton_registry_witness :
    ((applyAdds wMgr wBus [(1, []), (2, []), (1, [("x", "1")])]).1.get_component 1 =
      match ([(1, []), (2, []), (1, [("x", "1")])] :
          List (Nat × Payload)).reverse.find? (fun op => op.1 == 1) with
      | some op => some (builtComponent wMgr.agentId wMgr.agent 1 op.2)
      | none => wMgr.get_component 1) ∧
    ((((wMgr.add_component wBus 1 []).1.add_component wBus 1
        [("y", "2")]).1.components.countP fun kc => kc.1 == 1) = 1) ∧
    (((wMgr.add_component wBus 1 []).1.add_component wBus 1
        [("y", "2")]).1.get_component 1 =
      some (builtComponent wMgr.agentId wMgr.agent 1 [("y", "2")])) :=
  component_singleton_registry wMgr wBus wBus wBus
    [(1, []), (2, []), (1, [("x", "1")])] 1 [] [("y", "2")] (by decide)

/-- C8 — `get_component` on an absent class returns the not-found indicator
`none` rather than raising (the embedded lookup is a total function):
absence of the class in the registry and a `none` result coincide. -/
theorem get_component_absent (m : ComponentManager) (cls : Nat) :
    m.get_component cls = none ↔ m.has_component cls = false :=
  get_component_none_iff m cls

/-- C9 — the registry is keyed by exact class identity: after adding a
subclass `sub` of an absent class `base` (`sub ≠ base` as classes), looking
up `base` still returns `none` and `has_component base` is false, while the
added instance is found under `sub` itself. -/
theorem exact_class_key (m : ComponentManager) (bus : EventBus)
    (sub base : Nat) (arg : Payload) (hne : sub ≠ base)
    (hno : m.has_component base = false) :
    (m.add_component bus sub arg).1.get_component base = none ∧
    (m.add_component bus sub arg).1.has_component base = false ∧
    (m.add_component bus sub arg).1.get_component sub =
      some (builtComponent m.agentId m.agent sub arg) := by
  refine ⟨?_, ?_, add_component_get_self m bus sub arg⟩
  · rw [add_component_get_other m bus sub base arg (Ne.symm hne)]
    exact (get_component_none_iff m base).mpr hno
  · rw [Bool.eq_false_iff]
    intro htrue
    rw [has_component_true_iff] at htrue
    have hkeys : (m.add_component bus sub arg).1.components.map Prod.fst =
        (dictInsert sub (builtComponent m.agentId m.agent sub arg)
          m.components).map Prod.fst := rfl
    rw [hkeys, mem_keys_dictInsert] at htrue
    rcases htrue with heq | hmem
    · exact hne heq.symm
    · have := (has_component_true_iff m base).mpr hmem
      rw [hno] at this
      cases this

/-- Closed instance of C9: adding class 1 to an empty manager leaves class 0
absent while class 1 is found. -/
theorem exact_class_key_witness :
    (wMgr.add_component wBus 1 []).1.get_component 0 = none ∧
    (wMgr.add_component wBus 1 []).1.has_component 0 = false ∧
    (wMgr.add_component wBus 1 []).1.get_component 1 =
      some (builtComponent wMgr.agentId wMgr.agent 1 []) :=
  exact_class_key wMgr wBus 1 0 [] (by decide) (by decide)

theorem subMatches_iff (s : Subscription) (e : Event) :
    subMatches s e = true ↔
      (s.eventTypes.contains e.type = true ∧
        (e.target = "all" ∨ e.target = s.ownerId)) := by
  unfold subMatches
  rw [Bool.and_eq_true, Bool.or_eq_true]
  constructor
  · rintro ⟨h1, h2⟩
    refine ⟨h1, ?_⟩
    rcases h2 with h2 | h2
    · exact Or.inl (by exact beq_iff_eq.mp h2)
    · exact Or.inr (by exact beq_iff_eq.mp h2)
  · rintro ⟨h1, h2⟩
    refine ⟨h1, ?_⟩
    rcases h2 with h2 | h2
    · exact Or.inl (beq_iff_eq.mpr h2)
    · exact Or.inr (beq_iff_eq.mpr h2)

/-- C2 — tick isolation: an event emitted by a handler during tick N's
delivery pass (and not already pending before the tick) is not delivered by
tick N; it lands in the next tick's queue and, given a matching
subscription, is delivered during tick N+1. -/
theorem tick_isolation (bus : EventBus)
    (emitFn emitFn' : Nat → Event → List Event) (e : Event)
    (hemit : ∃ t ∈ (bus.tick emitFn).2, e ∈ emitFn t.1 t.2.2)
    (hnew : e ∉ bus.pending) (s : Subscription) (hs : s ∈ bus.subscriptions)
    (hm : subMatches s e = true) :
    (∀ t ∈ (bus.tick emitFn).2, t.2.2 ≠ e) ∧
    e ∈ (bus.tick emitFn).1.pending ∧
    (∃ i, (s.handlerId, i, e) ∈ ((bus.tick emitFn).1.tick emitFn').2) := by
  refine ⟨?_, ?_, ?_⟩
  · rintro ⟨hid, i, ev⟩ ht heq
    have hsound := @trace_sound bus.subscriptions bus.pending hid i ev ht
    have hev : ev ∈ bus.pending := snd_mem_of_mem_enum hsound.1
    rw [show (hid, i, ev).2.2 = ev from rfl] at heq
    rw [heq] at hev
    exact hnew hev
  · rcases hemit with ⟨t, ht, he⟩
    exact List.mem_flatMap.mpr ⟨t, ht, he⟩
  · have hpend : e ∈ (bus.tick emitFn).1.pending := by
      rcases hemit with ⟨t, ht, he⟩
      exact List.mem_flatMap.mpr ⟨t, ht, he⟩
    rcases exists_enum_of_mem hpend with ⟨i, hi⟩
    exact ⟨i, trace_complete hs hi hm⟩

/-- Closed instance of C2: the "pong" emitted while "ping" is delivered is
absent from the first tick's trace, queued, and delivered on the next
tick. -/
theorem tick_isolation_witness :
    (∀ t ∈ (wBus2.tick wEmit).2, t.2.2 ≠ wPong) ∧
    wPong ∈ (wBus2.tick wEmit).1.pending ∧
    (∃ i, (wSub.handlerId, i, wPong) ∈ ((wBus2.tick wEmit).1.tick wEmitNone).2) :=
  tick_isolation wBus2 wEmit wEmitNone wPong (by decide) (by decide) wSub
    (by decide) (by decide)

/-- C4 — targeted delivery: a tick delivers an event exactly to the handlers
subscribed to its type whose owning agent equals the event's target, or to
all such subscribers when the target is the broadcast sentinel "all";
concretely, a trace entry always comes from a matching registration, every
matching registration receives the event, and in a two-agent bus an event
targeted "agent_7" reaches only agent_7's handler while a broadcast reaches
both. -/
theorem targeted_delivery :
    (∀ (bus : EventBus) (emitFn : Nat → Event → List Event) (hid i : Nat)
        (e : Event), (hid, i, e) ∈ (bus.tick emitFn).2 →
          ∃ s ∈ bus.subscriptions, s.handlerId = hid ∧
            s.eventTypes.contains e.type = true ∧
            (e.target = "all" ∨ e.target = s.ownerId)) ∧
    (∀ (bus : EventBus) (emitFn : Nat → Event → List Event) (s : Subscription)
        (i : Nat) (e : Event), s ∈ bus.subscriptions →
        (i, e) ∈ bus.pending.enum → s.eventTypes.contains e.type = true →
        (e.target = "all" ∨ e.target = s.ownerId) →
          (s.handlerId, i, e) ∈ (bus.tick emitFn).2) ∧
    ((EventBus.tick
        ⟨[⟨["evt"], "agent_7", 0⟩, ⟨["evt"], "agent_9", 1⟩],
         [⟨"evt", "src", "agent_7", [], 5, 0⟩, ⟨"evt", "src", "all", [], 5, 0⟩],
         0⟩ wEmitNone).2.map (fun t => t.1) = [0, 0, 1]) := by
  refine ⟨?_, ?_, by decide⟩
  · intro bus emitFn hid i e ht
    have hsound := @trace_sound bus.subscriptions bus.pending hid i e ht
    rcases hsound.2 with ⟨s, hsmem, hsm, hsid⟩
    rcases (subMatches_iff s e).mp hsm with ⟨h1, h2⟩
    exact ⟨s, hsmem, hsid, h1, h2⟩
  · intro bus emitFn s i e hs hi h1 h2
    exact trace_complete hs hi ((subMatches_iff s e).mpr ⟨h1, h2⟩)

/-- C5 — `ComponentManager.deserialize` only restores components already
present: the registry's keys are unchanged (nothing constructed or removed),
a component whose name is not a key of `data` is left unchanged, a component
whose name is a key is restored from exactly that entry via its own
`deserialize`, and an entry of `data` matching no present component has no
effect. -/
theorem deserialize_only_present (m : ComponentManager)
    (data : List (String × Payload)) (f : Component → Payload → Component) :
    ((m.deserialize data f).components.map Prod.fst =
      m.components.map Prod.fst) ∧
    (∀ kc ∈ m.components,
        List.lookup (Component.get_component_name kc.2) data = none →
        kc ∈ (m.deserialize data f).components) ∧
    (∀ kc ∈ m.components, ∀ sd,
        List.lookup (Component.get_component_name kc.2) data = some sd →
        (kc.1, f kc.2 sd) ∈ (m.deserialize data f).components) ∧
    (∀ (n : String) (sd : Payload),
        (∀ kc ∈ m.components, Component.get_component_name kc.2 ≠ n) →
        m.deserialize ((n, sd) :: data) f = m.deserialize data f) := by
  refine ⟨?_, ?_, ?_, ?_⟩
  · unfold ComponentManager.deserialize
    rw [List.map_map]
    apply List.map_congr_left
    intro kc _
    cases h : List.lookup (Component.get_component_name kc.2) data <;>
      simp [h, Function.comp]
  · intro kc hkc hnone
    refine List.mem_map.mpr ⟨kc, hkc, ?_⟩
    show (match List.lookup (Component.get_component_name kc.2) data with
      | some sd => (kc.1, f kc.2 sd)
      | none => kc) = kc
    rw [hnone]
  · intro kc hkc sd hsome
    refine List.mem_map.mpr ⟨kc, hkc, ?_⟩
    show (match List.lookup (Component.get_component_name kc.2) data with
      | some sd0 => (kc.1, f kc.2 sd0)
      | none => kc) = (kc.1, f kc.2 sd)
    rw [hsome]
  · intro n sd hno
    unfold ComponentManager.deserialize
    congr 1
    apply List.map_congr_left
    intro kc hkc
    have hne : (Component.get_component_name kc.2 == n) = false := by
      simp [hno kc hkc]
    rw [List.lookup_cons, hne]

theorem tickComponents_cons (f : Component → Rat → Except String Component)
    (dt : Rat) (k : Nat) (c : Component) (t : List (Nat × Component)) :
    tickComponents f dt ((k, c) :: t) =
      match f c dt with
      | Except.error err => (Except.error err, [(k, dt)])
      | Except.ok c' =>
        ((tickComponents f dt t).1.map fun l => (k, c') :: l,
         (k, dt) :: (tickComponents f dt t).2) :=
  rfl

theorem tickComponents_ok_trace (f : Component → Rat → Except String Component)
    (dt : Rat) :
    ∀ l : List (Nat × Component), (∀ kc ∈ l, (f kc.2 dt).isOk = true) →
      (tickComponents f dt l).2 = l.map (fun kc => (kc.1, dt)) ∧
      ∃ l', (tickComponents f dt l).1 = Except.ok l' := by
  intro l
  induction l with
  | nil => intro _; exact ⟨rfl, [], rfl⟩
  | cons kc t ih =>
    intro h
    rcases kc with ⟨k, c⟩
    have hc := h (k, c) (List.mem_cons_self _ _)
    cases hfc : f c dt with
    | error err => rw [hfc] at hc; cases hc
    | ok c' =>
      rcases ih (fun kc0 hkc0 => h kc0 (List.mem_cons_of_mem _ hkc0)) with
        ⟨h2, l', h1⟩
      rw [tickComponents_cons, hfc]
      refine ⟨?_, (k, c') :: l', ?_⟩
      · show (k, dt) :: (tickComponents f dt t).2 = _
        rw [h2, List.map_cons]
      · show ((tickComponents f dt t).1.map fun l0 => (k, c') :: l0) = _
        rw [h1]
        rfl

theorem tickComponents_error (f : Component → Rat → Except String Component)
    (dt : Rat) (k : Nat) (c : Component) (err : String)
    (post : List (Nat × Component)) :
    ∀ pre : List (Nat × Component), (∀ kc ∈ pre, (f kc.2 dt).isOk = true) →
      f c dt = Except.error err →
      tickComponents f dt (pre ++ (k, c) :: post) =
        (Except.error err, pre.map (fun kc => (kc.1, dt)) ++ [(k, dt)]) := by
  intro pre
  induction pre with
  | nil =>
    intro _ hfc
    rw [List.nil_append, tickComponents_cons, hfc]
    rfl
  | cons kc0 pre' ih =>
    intro h hfc
    rcases kc0 with ⟨k₀, c₀⟩
    have hc := h (k₀, c₀) (List.mem_cons_self _ _)
    cases hfc0 : f c₀ dt with
    | error e0 => rw [hfc0] at hc; cases hc
    | ok c₀' =>
      rw [List.cons_append, tickComponents_cons, hfc0,
        ih (fun kc hkc => h kc (List.mem_cons_of_mem _ hkc)) hfc]
      rfl

/-- C6 — `ComponentManager.tick(delta_time)` invokes each owned component's
tick exactly once, in registry order, with the same `delta_time` (the
invocation trace equals the registry keys each paired with `dt`), and a
component tick that raises propagates immediately: the manager's tick
returns that error and the components after the failing one are not
invoked. -/
theorem manager_tick_all (m : ComponentManager)
    (f : Component → Rat → Except String Component) (dt : Rat) :
    ((∀ kc ∈ m.components, (f kc.2 dt).isOk = true) →
        (m.tick f dt).2 = m.components.map (fun kc => (kc.1, dt)) ∧
        ∃ m', (m.tick f dt).1 = Except.ok m') ∧
    (∀ (pre post : List (Nat × Component)) (k : Nat) (c : Component)
        (err : String), m.components = pre ++ (k, c) :: post →
        (∀ kc ∈ pre, (f kc.2 dt).isOk = true) → f c dt = Except.error err →
        (m.tick f dt).1 = Except.error err ∧
        (m.tick f dt).2 = pre.map (fun kc => (kc.1, dt)) ++ [(k, dt)]) := by
  constructor
  · intro h
    rcases tickComponents_ok_trace f dt m.components h with ⟨h2, l', h1⟩
    constructor
    · show (tickComponents f dt m.components).2 = _
      exact h2
    · refine ⟨{ m with components := l' }, ?_⟩
      show (tickComponents f dt m.components).1.map _ = _
      rw [h1]
      rfl
  · intro pre post k c err hcomps hpre hfc
    have := tickComponents_error f dt k c err post pre hpre hfc
    constructor
    · show (tickComponents f dt m.components).1.map _ = _
      rw [hcomps, this]
      rfl
    · show (tickComponents f dt m.components).2 = _
      rw [hcomps, this]

/-- C7 — `Component.emit_event` hands `EventBus.emit` exactly the event
built from its arguments: type as passed, source the component's agent id,
timestamp the bus's current time at emission, target and priority as passed
(the declaration defaults being "all" and 5), and data the passed mapping or
the empty mapping when `None`; the bus is otherwise untouched. -/
theorem emit_event_builds (c : Component) (bus : EventBus)
    (event_type : String) (data : Option Payload) (priority : Int)
    (target : String) :
    ((c.emit_event bus event_type data priority target).pending =
      bus.pending ++
        [{ type := event_type, source := c.agentId, target := target,
           data := data.getD [], priority := priority,
           timestamp := bus.get_current_time }]) ∧
    ((c.emit_event bus event_type data priority target).subscriptions =
      bus.subscriptions) ∧
    ((c.emit_event bus event_type data priority target).currentTime =
      bus.currentTime) ∧
    (c.emit_event bus event_type = c.emit_event bus event_type none 5 "all") := by
  refine ⟨?_, rfl, rfl, rfl⟩
  cases data <;> rfl

/-- C10 — `add_component` never touches the bus: the subscription table (and
the whole bus state) after `add_component` is the one from before, so every
registration present before — in particular a replaced instance's `on_event`
registration — is still present, and the next tick's delivery trace is
unaffected by the addition. -/
theorem add_component_bus_frame (m : ComponentManager) (bus : EventBus)
    (cls : Nat) (arg : Payload) :
    ((m.add_component bus cls arg).2.1 = bus) ∧
    (∀ s ∈ bus.subscriptions,
        s ∈ (m.add_component bus cls arg).2.1.subscriptions) ∧
    (∀ emitFn : Nat → Event → List Event,
        ((m.add_component bus cls arg).2.1.tick emitFn).2 =
          (bus.tick emitFn).2) :=
  ⟨rfl, fun _ hs => hs, fun _ => rfl⟩

end LifeSim
